import Mathlib

/-!
Shallow embedding of the heuristic analytics core of the Darwix-AI
sales-call analytics repository (`app/ai_insights.py` and the
similarity/coaching helpers of `app/main.py`), together with theorems
settling the specification claims about it.

Numeric values are modelled over `ℚ` where the Python code performs
exact rational arithmetic, and over `ℝ` where it uses `sqrt`/`log`.
Python's `hash` builtin (unspecified, per-process) is modelled as an
arbitrary parameter `h : String → ℕ`.
-/

namespace DarwixAI

/-- Python `str.strip` whitespace class (ASCII): space, tab, LF, VT, FF, CR. -/
def isPySpace (c : Char) : Bool :=
  c = ' ' || c = '\t' || c = '\n' || c = '\r' || c = Char.ofNat 11 || c = Char.ofNat 12

/-- Python `str.strip()` on a character list: drop leading and trailing
whitespace. -/
def stripChars (l : List Char) : List Char :=
  ((l.dropWhile isPySpace).reverse.dropWhile isPySpace).reverse

/-- Python `str.strip()`: drop leading and trailing whitespace. -/
def pyStrip (s : String) : String :=
  ⟨stripChars s.data⟩

/-- Python `str.lower` on ASCII text: lowercase character by character. -/
def lowerAscii (s : String) : String :=
  ⟨s.data.map Char.toLower⟩

/-- One step of splitting a character list at every separator occurrence,
keeping empty segments (Python `str.split('\n')` semantics). -/
def splitStep (sep : Char) (c : Char) : List (List Char) → List (List Char)
  | [] => if c = sep then [[], [c]] else [[c]]
  | s :: rest => if c = sep then [] :: s :: rest else (c :: s) :: rest

/-- Split a character list on a separator character, keeping empty segments. -/
def splitOnChar (sep : Char) (l : List Char) : List (List Char) :=
  l.foldr (splitStep sep) [[]]

/-- Join character lists with a separator (Python `sep.join`). -/
def joinSep (sep : List Char) : List (List Char) → List Char
  | [] => []
  | [x] => x
  | x :: y :: xs => x ++ sep ++ joinSep sep (y :: xs)

/-- Python regex `\w` on ASCII text: letters, digits, underscore. -/
def isWordChar (c : Char) : Bool :=
  c.isAlphanum || c = '_'

/-- One step of the tokenizer fold: growing the current word-character run,
flushing it into the token list at every non-word character. -/
def tokStep (c : Char) : List (List Char) × List Char → List (List Char) × List Char
  | (toks, run) =>
    if isWordChar c then (toks, c :: run)
    else if run.isEmpty then (toks, []) else (run :: toks, [])

/-- `re.findall(r'\b\w+\b', text.lower())`: the maximal runs of word
characters of the lowercased text, in order. -/
def tokenize (s : String) : List String :=
  let p := (lowerAscii s).data.foldr tokStep ([], [])
  ((if p.2.isEmpty then p.1 else p.2 :: p.1).map fun cs => ⟨cs⟩)

/-- `AIInsightsProcessor.positive_words` (`app/ai_insights.py`). -/
def positive_words : List String :=
  ["good", "great", "excellent", "thank", "thanks", "perfect", "satisfied", "happy",
   "wonderful", "amazing", "fantastic", "awesome", "love", "best", "brilliant",
   "outstanding", "superb", "pleased", "delighted", "impressed", "appreciate",
   "helpful", "resolved", "solution", "working", "fixed", "clear", "easy", "smooth",
   "efficient", "professional", "courteous", "patient", "understanding", "kind"]

/-- `AIInsightsProcessor.negative_words`. -/
def negative_words : List String :=
  ["bad", "terrible", "awful", "hate", "angry", "frustrated", "problem", "issue",
   "horrible", "disgusting", "worst", "useless", "disappointed", "annoyed",
   "furious", "outraged", "unacceptable", "pathetic", "ridiculous", "stupid",
   "broken", "failed", "error", "wrong", "confusing", "difficult", "waste",
   "rude", "unhelpful", "slow", "incompetent", "disaster", "nightmare"]

/-- `AIInsightsProcessor.neutral_words`. -/
def neutral_words : List String :=
  ["okay", "fine", "alright", "normal", "average", "standard", "regular"]

/-- Count of characters of `s` equal to `c` (Python `text.count('!')` for a
single-character needle). -/
def charCount (s : String) (c : Char) : ℕ :=
  (s.data.filter (· = c)).length

/-- Python truthiness of a stripped string: `not text.strip()`. -/
def isBlank (text : String) : Bool :=
  (pyStrip text).isEmpty

/-- Positive tally of `calculate_sentiment_fallback`:
`positive_count + exclamation_count * 0.2`. -/
def positiveScore (text : String) : ℚ :=
  ((tokenize text).filter (· ∈ positive_words)).length
    + (charCount text '!') * (2 / 10)

/-- Negative tally of `calculate_sentiment_fallback`:
`negative_count + question_count * 0.1`. -/
def negativeScore (text : String) : ℚ :=
  ((tokenize text).filter (· ∈ negative_words)).length
    + (charCount text '?') * (1 / 10)

/-- Neutral word count of `calculate_sentiment_fallback`. -/
def neutralCount (text : String) : ℕ :=
  ((tokenize text).filter (· ∈ neutral_words)).length

/-- `AIInsightsProcessor.calculate_sentiment_fallback` (`app/ai_insights.py`,
lines 123-150): lexicon/punctuation heuristic sentiment in [-1, 1]. -/
def calculate_sentiment_fallback (text : String) : ℚ :=
  if isBlank text then 0
  else
    let pos := positiveScore text
    let neg := negativeScore text
    let total := pos + neg + neutralCount text
    if total = 0 then 0
    else max (-1) (min 1 ((pos - neg) / total))

/-- `AIInsightsProcessor.extract_speaker_text`: split the transcript into
lines, strip each, route `Agent:`/`Customer:` prefixed lines into the two
buffers (dropping the 6- resp. 9-character prefix and stripping), space-join. -/
def extract_speaker_text (transcript : String) : String × String :=
  let step := fun (acc : List (List Char) × List (List Char)) (line : List Char) =>
    let line := stripChars line
    if "Agent:".data.isPrefixOf line then (acc.1 ++ [stripChars (line.drop 6)], acc.2)
    else if "Customer:".data.isPrefixOf line then (acc.1, acc.2 ++ [stripChars (line.drop 9)])
    else acc
  let p := (splitOnChar '\n' transcript.data).foldl step ([], [])
  (⟨joinSep [' '] p.1⟩, ⟨joinSep [' '] p.2⟩)

/-- `filler_words` of `calculate_talk_ratio`.  The two multi-word entries can
never match a single token but are kept faithfully. -/
def filler_words : List String :=
  ["um", "uh", "er", "ah", "like", "you know", "i mean", "well", "so"]

/-- `clean_text` inside `calculate_talk_ratio`: lowercase word tokens with
filler words removed. -/
def clean_text (text : String) : List String :=
  (tokenize text).filter (· ∉ filler_words)

/-- `AIInsightsProcessor.calculate_talk_ratio` (`app/ai_insights.py`,
lines 76-91). -/
def calculate_talk_ratio (transcript : String) : ℚ :=
  let p := extract_speaker_text transcript
  let agent_words := (clean_text p.1).length
  let customer_words := (clean_text p.2).length
  let total_words := agent_words + customer_words
  if 0 < total_words then (agent_words : ℚ) / (total_words : ℚ) else 1 / 2

/-! ### Coaching nudges (`generate_coaching_nudges`, `app/main.py` 255-287) -/

/-- Rule nudge for negative sentiment. -/
def empathyNudge : String :=
  "Practice empathy - acknowledge customer frustration before offering solutions."

/-- Rule nudge for clearly positive sentiment. -/
def positiveNudge : String :=
  "Great positive interaction! Maintain this energy in future calls."

/-- Rule nudge for a high agent talk ratio. -/
def activeListeningNudge : String :=
  "Try active listening - let customers express concerns fully before responding."

/-- Rule nudge for a low agent talk ratio (proactive questioning). -/
def proactiveNudge : String :=
  "Take initiative - guide the conversation with proactive questions and solutions."

/-- The fixed pool of 5 generic default nudges (`default_nudges` in the code). -/
def default_nudges : List String :=
  ["Summarize key points to ensure customer understanding and agreement.",
   "Use positive language and avoid negative words like \x27can\x27t\x27 or \x27won\x27t\x27.",
   "Ask open-ended questions to better understand customer needs.",
   "Confirm next steps and set clear expectations before ending calls.",
   "Practice patience - some customers need more time to process information."]

/-- Python truthiness of an `Optional[float]` attribute: `None` and `0.0` are
falsy, every other value truthy. -/
def truthy (o : Option ℚ) : Bool :=
  match o with
  | none => false
  | some q => decide (q ≠ 0)

/-- The sentiment `if`/`elif` pair of `generate_coaching_nudges`:
`if score and score < 0` then empathy, `elif score and score > 0.5` then
positive reinforcement. -/
def sentimentNudges (s : Option ℚ) : List String :=
  if truthy s ∧ s.getD 0 < 0 then [empathyNudge]
  else if truthy s ∧ s.getD 0 > 1 / 2 then [positiveNudge]
  else []

/-- The talk-ratio `if`/`elif` pair of `generate_coaching_nudges`:
`if ratio and ratio > 0.7` then active listening, `elif ratio and ratio < 0.3`
then proactive questioning. -/
def ratioNudges (r : Option ℚ) : List String :=
  if truthy r ∧ r.getD 0 > 7 / 10 then [activeListeningNudge]
  else if truthy r ∧ r.getD 0 < 3 / 10 then [proactiveNudge]
  else []

/-- `generate_coaching_nudges` (`app/main.py`, lines 255-287), with
`random.sample` abstracted as an injected `sample pool k` drawing `k`
elements without replacement from `pool`.  The `similar_calls` argument of
the original is unused by the function body and is omitted. -/
def generate_coaching_nudges (sample : List String → ℕ → List String)
    (sentiment ratio : Option ℚ) : List String :=
  let nudges := sentimentNudges sentiment ++ ratioNudges ratio
  let nudges :=
    if nudges.length < 3 then
      nudges ++ sample default_nudges (min (3 - nudges.length) default_nudges.length)
    else nudges
  nudges.take 3

/-! ### Cosine similarity and the recommendation ranker (`app/main.py`) -/

/-- `cosine_similarity` (`app/main.py`, lines 39-50).  `not a` on a Python
list is emptiness; the magnitudes are `sqrt` of the sums of squares. -/
noncomputable def cosine_similarity (a b : List ℝ) : ℝ :=
  if a.length = 0 ∨ b.length = 0 ∨ a.length ≠ b.length then 0
  else
    let dot_product := ((a.zip b).map fun p => p.1 * p.2).sum
    let magnitude_a := Real.sqrt ((a.map fun x => x * x).sum)
    let magnitude_b := Real.sqrt ((b.map fun x => x * x).sum)
    if magnitude_a = 0 ∨ magnitude_b = 0 then 0
    else dot_product / (magnitude_a * magnitude_b)

/-- The fields of a stored `CallRecord` that the recommendation endpoint
reads.  `embedding` is `Optional` in the database. -/
structure Candidate where
  call_id : String
  embedding : Option (List ℝ)
  agent_id : String
  customer_sentiment_score : Option ℚ

/-- One scored candidate of the recommendation scan: its position in the
input list (Python list order, which the stable sort preserves on ties),
its similarity to the target, and the candidate itself. -/
structure RankEntry where
  idx : ℕ
  sim : ℝ
  cand : Candidate

/-- The scoring loop of `get_call_recommendations` (`app/main.py`, lines
230-233): candidates whose `embedding` is falsy (`None` or the empty list)
are skipped; the rest get a cosine similarity against the target. -/
noncomputable def scoreCalls (target : List ℝ) : ℕ → List Candidate → List RankEntry
  | _, [] => []
  | i, c :: cs =>
    (match c.embedding with
     | some e => if e.length ≠ 0 then [⟨i, cosine_similarity target e, c⟩] else []
     | none => []) ++ scoreCalls target (i + 1) cs

/-- The order used by `similarities.sort(key=lambda x: x[1], reverse=True)`:
Python's sort is stable, so it sorts by similarity descending and, on equal
similarity, by original position ascending. -/
def rankLE (a b : RankEntry) : Prop :=
  b.sim < a.sim ∨ (a.sim = b.sim ∧ a.idx ≤ b.idx)

noncomputable instance : DecidableRel rankLE := fun a b => by
  unfold rankLE; infer_instance

instance : IsTotal RankEntry rankLE where
  total a b := by
    rcases lt_trichotomy a.sim b.sim with h | h | h
    · exact Or.inr (Or.inl h)
    · rcases Nat.le_total a.idx b.idx with hi | hi
      · exact Or.inl (Or.inr ⟨h, hi⟩)
      · exact Or.inr (Or.inr ⟨h.symm, hi⟩)
    · exact Or.inl (Or.inl h)

instance : IsTrans RankEntry rankLE where
  trans a b c hab hbc := by
    rcases hab with hab | ⟨hab, hab'⟩ <;> rcases hbc with hbc | ⟨hbc, hbc'⟩
    · exact Or.inl (hbc.trans hab)
    · exact Or.inl (hbc ▸ hab)
    · exact Or.inl (hab ▸ hbc)
    · exact Or.inr ⟨hab.trans hbc, hab'.trans hbc'⟩

/-- The ranking step of `get_call_recommendations` (`app/main.py`, lines
228-236): score candidates in input order, stable-sort by similarity
descending, keep the first 5. -/
noncomputable def get_call_recommendations (target : List ℝ) (calls : List Candidate) :
    List RankEntry :=
  ((scoreCalls target 0 calls).insertionSort rankLE).take 5

/-! ### Heuristic embedding (`generate_embedding_fallback`, `app/ai_insights.py`
lines 169-203).  Python's `hash` builtin is an arbitrary `h : String → ℕ`. -/

/-- `hash(x) % 384` as an index. -/
def hIdx (h : String → ℕ) (w : String) : Fin 384 :=
  ⟨h w % 384, Nat.mod_lt _ (by norm_num)⟩

/-- `hash1 = hash(word) % dim`. -/
def idx1 (h : String → ℕ) (w : String) : Fin 384 := hIdx h w

/-- `hash2 = hash(word + "_pos") % dim`. -/
def idx2 (h : String → ℕ) (w : String) : Fin 384 := hIdx h (w ++ "_pos")

/-- `hash3 = hash(word + str(len(word))) % dim`. -/
def idx3 (h : String → ℕ) (w : String) : Fin 384 := hIdx h (w ++ toString w.length)

/-- `embedding[j] += x`. -/
def addAt (v : Fin 384 → ℚ) (j : Fin 384) (x : ℚ) : Fin 384 → ℚ :=
  Function.update v j (v j + x)

/-- The position weight of token index `i` among `n` tokens:
`1.0 - (i / len(words)) * 0.1`. -/
def posWeight (n i : ℕ) : ℚ :=
  1 - ((i : ℚ) / (n : ℚ)) * (1 / 10)

/-- The accumulation loop of `generate_embedding_fallback`: for each token,
add `w`, `0.5 * w`, `0.3 * w` at its three hash indices. -/
def accumTokens (h : String → ℕ) (n : ℕ) : ℕ → List String → (Fin 384 → ℚ) → Fin 384 → ℚ
  | _, [], v => v
  | i, w :: ws, v =>
    let pw := posWeight n i
    let v := addAt v (idx1 h w) pw
    let v := addAt v (idx2 h w) (pw * (1 / 2))
    let v := addAt v (idx3 h w) (pw * (3 / 10))
    accumTokens h n (i + 1) ws v

/-- One step of the TF-IDF pass: `embedding[hash(word) % dim] *= log(1 + n/f)`
where `f` is the frequency of `word` among the tokens. -/
noncomputable def scaleStep (h : String → ℕ) (n : ℕ) (tokens : List String)
    (v : Fin 384 → ℝ) (w : String) : Fin 384 → ℝ :=
  Function.update v (idx1 h w)
    (v (idx1 h w) * Real.log (1 + (n : ℝ) / (tokens.count w : ℝ)))

/-- The TF-IDF-like pass of `generate_embedding_fallback`: for each distinct
token with frequency `f`, multiply the entry at its primary hash index by
`log (1 + n / f)`.  The iteration order over the distinct tokens (dict
insertion order in Python) does not affect the resulting vector;
`List.dedup` enumerates each distinct token once. -/
noncomputable def tfidfScale (h : String → ℕ) (n : ℕ) (tokens : List String)
    (v : Fin 384 → ℝ) : Fin 384 → ℝ :=
  tokens.dedup.foldl (scaleStep h n tokens) v

/-- The pre-normalization embedding vector of `generate_embedding_fallback`:
the accumulation loop over the tokens followed by the TF-IDF pass. -/
noncomputable def embVec (h : String → ℕ) (text : String) : Fin 384 → ℝ :=
  tfidfScale h (tokenize text).length (tokenize text)
    fun j => ((accumTokens h (tokenize text).length 0 (tokenize text) (fun _ => 0) j : ℚ) : ℝ)

/-- `AIInsightsProcessor.generate_embedding_fallback` (`app/ai_insights.py`,
lines 169-203) at the default dimension 384, parameterised by the Python
`hash` builtin `h`: the accumulated, TF-IDF-scaled vector, divided by its
L2 magnitude when that is positive, returned as the 384 entries in index
order (`np.ndarray.tolist`). -/
noncomputable def generate_embedding_fallback (h : String → ℕ) (text : String) : List ℝ :=
  let v := embVec h text
  let magnitude := Real.sqrt (∑ j, v j ^ 2)
  (List.finRange 384).map (if 0 < magnitude then fun j => v j / magnitude else v)

/-- Squared L2 norm of a vector given as a list. -/
def listNormSq (l : List ℝ) : ℝ :=
  (l.map fun x => x ^ 2).sum

/-! ### Model-backed strategies (`calculate_sentiment_real`,
`generate_embedding_real`).  The injected capability is a function into
`Except ε`, whose `error` case models a raised exception or malformed
output; the `try`/`except` of the code maps it to the heuristic result. -/

/-- `sentiment_map` of `calculate_sentiment_real`. -/
def sentiment_map (label : String) : Option ℚ :=
  if label = "LABEL_0" then some (-1)
  else if label = "LABEL_1" then some 0
  else if label = "LABEL_2" then some 1
  else none

/-- `AIInsightsProcessor.calculate_sentiment_real` (`app/ai_insights.py`,
lines 93-121): blank text returns 0.0 without touching the model; otherwise
the injected pipeline's per-label confidences are mapped through
`sentiment_map`, weighted, summed and clamped, and any pipeline failure
falls back to `calculate_sentiment_fallback`. -/
def calculate_sentiment_real {ε : Type} (pipe : String → Except ε (List (String × ℚ)))
    (text : String) : ℚ :=
  if isBlank text then 0
  else
    match pipe text with
    | Except.error _ => calculate_sentiment_fallback text
    | Except.ok results =>
      max (-1) (min 1 ((results.map fun p => (sentiment_map p.1).getD 0 * p.2).sum))

/-- `AIInsightsProcessor.generate_embedding_real` (`app/ai_insights.py`,
lines 159-167): delegate to the injected encoder, fall back to
`generate_embedding_fallback` on any failure. -/
noncomputable def generate_embedding_real {ε : Type} (enc : String → Except ε (List ℝ))
    (h : String → ℕ) (text : String) : List ℝ :=
  match enc text with
  | Except.ok v => v
  | Except.error _ => generate_embedding_fallback h text

/-! ### Helper lemmas -/

lemma listSumSq_nonneg (v : List ℝ) : 0 ≤ (v.map fun x => x * x).sum := by
  induction v with
  | nil => simp
  | cons a l ih => simpa using add_nonneg (mul_self_nonneg a) ih

lemma listSumSq_pos {v : List ℝ} (h : ∃ x ∈ v, x ≠ 0) :
    0 < (v.map fun x => x * x).sum := by
  induction v with
  | nil => simp at h
  | cons a l ih =>
    obtain ⟨x, hx, hx0⟩ := h
    simp only [List.map_cons, List.sum_cons]
    rcases List.mem_cons.mp hx with rfl | hx
    · exact add_pos_of_pos_of_nonneg (mul_self_pos.mpr hx0) (listSumSq_nonneg l)
    · exact add_pos_of_nonneg_of_pos (mul_self_nonneg a) (ih ⟨x, hx, hx0⟩)

lemma zip_self_mul (v : List ℝ) :
    ((v.zip v).map fun p => p.1 * p.2) = v.map fun x => x * x := by
  induction v with
  | nil => rfl
  | cons a l ih => simp [List.zip, ih]

/-! ### The claims -/

/-- Claim C4: for every text input the heuristic sentiment lies in [-1, 1];
it is 0 for blank input or a zero indicator total, and otherwise equals
`(positive − negative) / (positive + negative + neutral)` clamped to
[-1, 1], where the tallies include the punctuation adjustments. -/
theorem sentiment_fallback_spec (text : String) :
    -1 ≤ calculate_sentiment_fallback text ∧ calculate_sentiment_fallback text ≤ 1 ∧
    calculate_sentiment_fallback text =
      (if isBlank text then 0
       else if positiveScore text + negativeScore text + neutralCount text = 0 then 0
       else max (-1) (min 1 ((positiveScore text - negativeScore text) /
          (positiveScore text + negativeScore text + neutralCount text)))) := by
  refine ⟨?_, ?_, rfl⟩ <;> unfold calculate_sentiment_fallback <;> dsimp only <;>
      split_ifs
  · norm_num
  · norm_num
  · exact le_max_left _ _
  · norm_num
  · norm_num
  · exact max_le (by norm_num) (min_le_left _ _)

/-- Claim C5: the talk-ratio operation returns
`agent_words / (agent_words + customer_words)` over lowercase word tokens
with the filler words removed, returns 0.5 when both counts are zero, and
always lies in [0, 1]. -/
theorem talk_ratio_spec (transcript : String) :
    0 ≤ calculate_talk_ratio transcript ∧ calculate_talk_ratio transcript ≤ 1 ∧
    calculate_talk_ratio transcript =
      (if 0 < (clean_text (extract_speaker_text transcript).1).length +
            (clean_text (extract_speaker_text transcript).2).length
       then ((clean_text (extract_speaker_text transcript).1).length : ℚ) /
         (((clean_text (extract_speaker_text transcript).1).length +
           (clean_text (extract_speaker_text transcript).2).length : ℕ) : ℚ)
       else 1 / 2) := by
  refine ⟨?_, ?_, rfl⟩ <;> unfold calculate_talk_ratio <;> dsimp only <;> split_ifs with h
  · positivity
  · norm_num
  · rw [div_le_one (by exact_mod_cast h)]
    exact_mod_cast Nat.le_add_right _ _
  · norm_num

/-- Claim C6: `cosine_similarity` returns 0.0 when either input is empty,
when the lengths differ, or when either magnitude is 0 (and, being a total
function of its inputs, never raises). -/
theorem cosine_similarity_guard_spec (a b : List ℝ) :
    (a.length = 0 → cosine_similarity a b = 0) ∧
    (b.length = 0 → cosine_similarity a b = 0) ∧
    (a.length ≠ b.length → cosine_similarity a b = 0) ∧
    (Real.sqrt ((a.map fun x => x * x).sum) = 0 → cosine_similarity a b = 0) ∧
    (Real.sqrt ((b.map fun x => x * x).sum) = 0 → cosine_similarity a b = 0) := by
  refine ⟨fun h => ?_, fun h => ?_, fun h => ?_, fun h => ?_, fun h => ?_⟩ <;>
    unfold cosine_similarity
  · rw [if_pos (Or.inl h)]
  · rw [if_pos (Or.inr (Or.inl h))]
  · rw [if_pos (Or.inr (Or.inr h))]
  · by_cases h1 : a.length = 0 ∨ b.length = 0 ∨ a.length ≠ b.length
    · rw [if_pos h1]
    · rw [if_neg h1]
      dsimp only
      rw [if_pos (Or.inl h)]
  · by_cases h1 : a.length = 0 ∨ b.length = 0 ∨ a.length ≠ b.length
    · rw [if_pos h1]
    · rw [if_neg h1]
      dsimp only
      rw [if_pos (Or.inr h)]

/-- Witness for C6 at concrete inputs: an empty first vector and a
zero-magnitude first vector. -/
theorem cosine_similarity_guard_witness :
    cosine_similarity [] [1] = 0 ∧ cosine_similarity [0, 0] [1, 1] = 0 :=
  ⟨(cosine_similarity_guard_spec [] [1]).1 rfl,
   (cosine_similarity_guard_spec [0, 0] [1, 1]).2.2.2.1 (by norm_num [Real.sqrt_eq_zero'])⟩

/-- Claim C7: for every nonzero vector `v`,
`cosine_similarity v v = 1.0`. -/
theorem cosine_similarity_self (v : List ℝ) (hv : ∃ x ∈ v, x ≠ 0) :
    cosine_similarity v v = 1 := by
  have hne : v.length ≠ 0 := by
    obtain ⟨x, hxv, -⟩ := hv
    intro h
    rw [List.length_eq_zero] at h
    subst h
    simp at hxv
  have hS : 0 < (v.map fun x => x * x).sum := listSumSq_pos hv
  have hsqrt : 0 < Real.sqrt ((v.map fun x => x * x).sum) := Real.sqrt_pos.mpr hS
  unfold cosine_similarity
  rw [if_neg (by push_neg; exact ⟨hne, hne, rfl⟩)]
  dsimp only
  rw [if_neg (by push_neg; exact ⟨ne_of_gt hsqrt, ne_of_gt hsqrt⟩), zip_self_mul,
    Real.mul_self_sqrt hS.le, div_self (ne_of_gt hS)]

/-- Witness for C7 at the concrete nonzero vector `[1, 2]`. -/
theorem cosine_similarity_self_witness : cosine_similarity [1, 2] [1, 2] = 1 :=
  cosine_similarity_self [1, 2] ⟨1, by norm_num, by norm_num⟩

/-- Claim C9: when the injected model-backed capability fails, the
model-backed sentiment and embedding operations return exactly the
heuristic strategy's result for that text, never propagating the failure. -/
theorem model_backed_fallback_spec {ε : Type}
    (pipe : String → Except ε (List (String × ℚ))) (enc : String → Except ε (List ℝ))
    (h : String → ℕ) (text : String) (e e' : ε)
    (hp : pipe text = Except.error e) (he : enc text = Except.error e') :
    calculate_sentiment_real pipe text = calculate_sentiment_fallback text ∧
    generate_embedding_real enc h text = generate_embedding_fallback h text := by
  constructor
  · unfold calculate_sentiment_real
    split_ifs with hb
    · unfold calculate_sentiment_fallback
      rw [if_pos hb]
    · rw [hp]
  · unfold generate_embedding_real
    rw [he]

/-- Witness for C9 with concrete always-failing capabilities. -/
theorem model_backed_fallback_witness :
    calculate_sentiment_real (fun _ => (Except.error () : Except Unit (List (String × ℚ))))
        "hello" = calculate_sentiment_fallback "hello" ∧
    generate_embedding_real (fun _ => (Except.error () : Except Unit (List ℝ)))
        (fun _ => 0) "hello" = generate_embedding_fallback (fun _ => 0) "hello" :=
  model_backed_fallback_spec _ _ _ "hello" () () rfl rfl

lemma sentimentNudges_length_le (s : Option ℚ) : (sentimentNudges s).length ≤ 1 := by
  unfold sentimentNudges
  split_ifs <;> simp

lemma ratioNudges_length_le (r : Option ℚ) : (ratioNudges r).length ≤ 1 := by
  unfold ratioNudges
  split_ifs <;> simp

lemma ruleNudges_length_le (s r : Option ℚ) :
    (sentimentNudges s ++ ratioNudges r).length ≤ 2 := by
  rw [List.length_append]
  have := sentimentNudges_length_le s
  have := ratioNudges_length_le r
  omega

/-- Claim C10: at most 2 rule-triggered nudges are ever collected, so the
default-pool draw of size `3 − collected` never exceeds the pool size 5 and
the pool-exhausted (`min`) branch of `generate_coaching_nudges` never
truncates the draw. -/
theorem rule_nudges_pool_invariant (s r : Option ℚ) :
    (sentimentNudges s ++ ratioNudges r).length ≤ 2 ∧
    3 - (sentimentNudges s ++ ratioNudges r).length ≤ default_nudges.length ∧
    min (3 - (sentimentNudges s ++ ratioNudges r).length) default_nudges.length =
      3 - (sentimentNudges s ++ ratioNudges r).length := by
  have h := ruleNudges_length_le s r
  have h5 : default_nudges.length = 5 := rfl
  exact ⟨h, by omega, by omega⟩

lemma coaching_nudges_eq (sample : List String → ℕ → List String)
    (hlen : ∀ l k, k ≤ l.length → (sample l k).length = k) (s r : Option ℚ) :
    generate_coaching_nudges sample s r =
      (sentimentNudges s ++ ratioNudges r) ++
        sample default_nudges (3 - (sentimentNudges s ++ ratioNudges r).length) := by
  have h2 := ruleNudges_length_le s r
  have h5 : default_nudges.length = 5 := rfl
  unfold generate_coaching_nudges
  dsimp only
  rw [if_pos (by omega), min_eq_left (by omega)]
  have hs : (sample default_nudges (3 - (sentimentNudges s ++ ratioNudges r).length)).length =
      3 - (sentimentNudges s ++ ratioNudges r).length := hlen _ _ (by omega)
  apply List.take_of_length_le
  rw [List.length_append, hs]
  omega

/-- Claim C3: for every combination of present/absent sentiment and talk
ratio and every admissible sampler, `generate_coaching_nudges` returns
exactly 3 strings, the rule-triggered nudges first, followed by draws from
the fixed default pool. -/
theorem coaching_nudges_exactly_three (sample : List String → ℕ → List String)
    (hlen : ∀ l k, k ≤ l.length → (sample l k).length = k)
    (hmem : ∀ l k, ∀ x ∈ sample l k, x ∈ l) (s r : Option ℚ) :
    (generate_coaching_nudges sample s r).length = 3 ∧
    (generate_coaching_nudges sample s r).take
        (sentimentNudges s ++ ratioNudges r).length = sentimentNudges s ++ ratioNudges r ∧
    ∀ x ∈ (generate_coaching_nudges sample s r).drop
        (sentimentNudges s ++ ratioNudges r).length, x ∈ default_nudges := by
  have h2 := ruleNudges_length_le s r
  have h5 : default_nudges.length = 5 := rfl
  have heq := coaching_nudges_eq sample hlen s r
  refine ⟨?_, ?_, ?_⟩
  · rw [heq, List.length_append, hlen _ _ (by omega)]
    omega
  · rw [heq, List.take_left]
  · rw [heq, List.drop_left]
    exact fun x hx => hmem _ _ x hx

/-- Witness for C3 with the deterministic `take` sampler and both signals
absent. -/
theorem coaching_nudges_exactly_three_witness :
    (generate_coaching_nudges (fun l k => l.take k) none none).length = 3 :=
  (coaching_nudges_exactly_three (fun l k => l.take k)
    (fun l k hk => by rw [List.length_take]; omega)
    (fun l k x hx => List.take_subset k l hx) none none).1

/-- Counterexample for C1 as stated: a talk ratio equal to 0.0 is present
and strictly below 0.3 (and not above 0.7), yet the proactive-questioning
nudge is not produced — `if ratio and ratio < 0.3` treats the falsy value
0.0 like an absent one, so only default-pool nudges are returned. -/
theorem proactive_nudge_zero_ratio_cex :
    (some (0 : ℚ)).isSome = true ∧ (0 : ℚ) < 3 / 10 ∧ ¬((0 : ℚ) > 7 / 10) ∧
    proactiveNudge ∉ generate_coaching_nudges (fun l k => l.take k) none (some 0) := by
  have hlist : generate_coaching_nudges (fun l k => l.take k) none (some 0) =
      default_nudges.take 3 := by
    have heq := coaching_nudges_eq (fun l k => l.take k)
      (fun l k hk => by rw [List.length_take]; omega) none (some 0)
    have hs : sentimentNudges none = [] := by
      unfold sentimentNudges truthy
      norm_num
    have hr : ratioNudges (some 0) = [] := by
      unfold ratioNudges truthy
      norm_num
    rw [heq, hs, hr]
    rfl
  refine ⟨rfl, by norm_num, by norm_num, ?_⟩
  rw [hlist]
  decide

/-- Claim C1 amended: whenever the stored talk ratio is present, *nonzero*
(Python truthiness) and strictly less than 0.3, the proactive-questioning
nudge appears in the output, for every sampler and sentiment value. -/
theorem proactive_nudge_low_ratio (sample : List String → ℕ → List String)
    (s : Option ℚ) (q : ℚ) (hq0 : q ≠ 0) (hq : q < 3 / 10) :
    proactiveNudge ∈ generate_coaching_nudges sample s (some q) := by
  have hr : ratioNudges (some q) = [proactiveNudge] := by
    unfold ratioNudges truthy
    rw [if_neg, if_pos]
    · simpa using ⟨hq0, hq⟩
    · rintro ⟨-, h7⟩
      rw [Option.getD_some] at h7
      nlinarith
  have h1 := sentimentNudges_length_le s
  unfold generate_coaching_nudges
  dsimp only
  rw [hr, if_pos (by simp only [List.length_append, List.length_singleton]; omega)]
  rw [List.take_append_eq_append_take,
    List.take_of_length_le (by simp only [List.length_append, List.length_singleton]; omega)]
  exact List.mem_append_left _ (List.mem_append_right _ (List.mem_singleton_self _))

/-- Witness for the amended C1 at the concrete present, nonzero, low talk
ratio 0.1. -/
theorem proactive_nudge_low_ratio_witness :
    proactiveNudge ∈ generate_coaching_nudges (fun l k => l.take k) none (some (1 / 10)) :=
  proactive_nudge_low_ratio (fun l k => l.take k) none (1 / 10) (by norm_num) (by norm_num)

/-! ### The ranking claim -/

/-- Strict ranking order: strictly greater similarity, or equal similarity
and strictly earlier original position. -/
def rankLT (a b : RankEntry) : Prop :=
  b.sim < a.sim ∨ (a.sim = b.sim ∧ a.idx < b.idx)

lemma scoreCalls_le_idx (target : List ℝ) :
    ∀ (i : ℕ) (cs : List Candidate), ∀ e ∈ scoreCalls target i cs, i ≤ e.idx := by
  intro i cs
  induction cs generalizing i with
  | nil => simp [scoreCalls]
  | cons c cs ih =>
    intro e he
    unfold scoreCalls at he
    rcases List.mem_append.mp he with he | he
    · rcases hc : c.embedding with - | emb <;> rw [hc] at he <;> dsimp only at he
      · simp at he
      · split_ifs at he with hlen
        · rw [List.mem_singleton] at he
          subst he
          exact le_refl i
        · simp at he
    · exact (Nat.le_succ i).trans (ih (i + 1) e he)

lemma scoreCalls_pairwise_idx (target : List ℝ) :
    ∀ (i : ℕ) (cs : List Candidate),
      (scoreCalls target i cs).Pairwise fun a b => a.idx < b.idx := by
  intro i cs
  induction cs generalizing i with
  | nil => simp [scoreCalls]
  | cons c cs ih =>
    unfold scoreCalls
    rw [List.pairwise_append]
    refine ⟨?_, ih (i + 1), ?_⟩
    · rcases hc : c.embedding with - | emb <;> dsimp only
      · simp
      · split_ifs <;> simp
    · intro a ha b hb
      have hb' := scoreCalls_le_idx target (i + 1) cs b hb
      rcases hc : c.embedding with - | emb <;> rw [hc] at ha <;> dsimp only at ha
      · simp at ha
      · split_ifs at ha with hlen
        · rw [List.mem_singleton] at ha
          subst ha
          show i < b.idx
          omega
        · simp at ha

lemma scoreCalls_embedding_present (target : List ℝ) :
    ∀ (i : ℕ) (cs : List Candidate), ∀ e ∈ scoreCalls target i cs,
      ∃ emb, e.cand.embedding = some emb ∧ emb ≠ [] := by
  intro i cs
  induction cs generalizing i with
  | nil => simp [scoreCalls]
  | cons c cs ih =>
    intro e he
    unfold scoreCalls at he
    rcases List.mem_append.mp he with he | he
    · rcases hc : c.embedding with - | emb <;> rw [hc] at he <;> dsimp only at he
      · simp at he
      · split_ifs at he with hlen
        · rw [List.mem_singleton] at he
          subst he
          exact ⟨emb, hc, fun hnil => hlen (by rw [hnil]; rfl)⟩
        · simp at he
    · exact ih (i + 1) e he

/-- Claim C8: for every query embedding and candidate collection, the
ranking returns at most 5 entries, pairwise ordered by strictly descending
similarity with ties broken by original input order, and every returned
entry carries a present, non-empty embedding (absent ones are skipped). -/
theorem recommendations_ranking_spec (target : List ℝ) (calls : List Candidate) :
    (get_call_recommendations target calls).length ≤ 5 ∧
    (get_call_recommendations target calls).Pairwise rankLT ∧
    ∀ e ∈ get_call_recommendations target calls,
      e.cand.embedding ≠ none ∧ ∃ emb, e.cand.embedding = some emb ∧ emb ≠ [] := by
  have hperm := List.perm_insertionSort rankLE (scoreCalls target 0 calls)
  have hsorted := List.sorted_insertionSort rankLE (scoreCalls target 0 calls)
  have hnd : ((scoreCalls target 0 calls).insertionSort rankLE).Pairwise
      fun a b => a.idx ≠ b.idx :=
    (hperm.pairwise_iff (fun {a b} h => Ne.symm h)).mpr
      ((scoreCalls_pairwise_idx target 0 calls).imp fun h => Nat.ne_of_lt h)
  have hlt : ((scoreCalls target 0 calls).insertionSort rankLE).Pairwise rankLT := by
    have hand := hsorted.and hnd
    refine hand.imp ?_
    rintro a b ⟨hle | ⟨heq, hle⟩, hne⟩
    · exact Or.inl hle
    · exact Or.inr ⟨heq, lt_of_le_of_ne hle hne⟩
  refine ⟨List.length_take_le _ _, hlt.sublist (List.take_sublist _ _), fun e he => ?_⟩
  have he' : e ∈ scoreCalls target 0 calls :=
    hperm.mem_iff.mp (List.mem_of_mem_take he)
  obtain ⟨emb, hemb, hnil⟩ := scoreCalls_embedding_present target 0 calls e he'
  exact ⟨by rw [hemb]; exact fun h => Option.noConfusion h, emb, hemb, hnil⟩

/-- Witness for C8 at a concrete query and one-candidate collection. -/
theorem recommendations_ranking_witness :
    (⟨"a", some [1], "b", none⟩ : Candidate).embedding ≠ none := by
  have hc : get_call_recommendations [1] [⟨"a", some [1], "b", none⟩] =
      [⟨0, cosine_similarity [1] [1], ⟨"a", some [1], "b", none⟩⟩] := by
    simp [get_call_recommendations, scoreCalls]
  exact ((recommendations_ranking_spec [1] [⟨"a", some [1], "b", none⟩]).2.2
    ⟨0, cosine_similarity [1] [1], ⟨"a", some [1], "b", none⟩⟩
    (by rw [hc]; exact List.mem_singleton_self _)).1

/-! ### The embedding claim -/

lemma addAt_le (v : Fin 384 → ℚ) (j : Fin 384) (x : ℚ) (hx : 0 ≤ x) (k : Fin 384) :
    v k ≤ addAt v j x k := by
  unfold addAt
  rcases eq_or_ne k j with rfl | hkj
  · rw [Function.update_same]
    linarith
  · rw [Function.update_noteq hkj]

lemma posWeight_pos {n i : ℕ} (hin : i < n) : 0 < posWeight n i := by
  unfold posWeight
  have hn : (0 : ℚ) < n := by
    exact_mod_cast Nat.pos_of_ne_zero (by omega)
  have h1 : (i : ℚ) / n < 1 := (div_lt_one hn).mpr (by exact_mod_cast hin)
  have h0 : (0 : ℚ) ≤ (i : ℚ) / n := by positivity
  nlinarith

lemma accumTokens_mono (h : String → ℕ) (n : ℕ) :
    ∀ (i : ℕ) (ws : List String) (v : Fin 384 → ℚ) (k : Fin 384), i + ws.length = n →
      v k ≤ accumTokens h n i ws v k := by
  intro i ws
  induction ws generalizing i with
  | nil =>
    intro v k _
    rw [accumTokens]
  | cons w ws ih =>
    intro v k hlen
    rw [accumTokens]
    have hin : i < n := by
      simp only [List.length_cons] at hlen
      omega
    have hpw := (posWeight_pos hin).le
    calc v k ≤ addAt v (idx1 h w) (posWeight n i) k := addAt_le _ _ _ hpw k
      _ ≤ addAt (addAt v (idx1 h w) (posWeight n i)) (idx2 h w)
            (posWeight n i * (1 / 2)) k := addAt_le _ _ _ (by linarith) k
      _ ≤ addAt (addAt (addAt v (idx1 h w) (posWeight n i)) (idx2 h w)
            (posWeight n i * (1 / 2))) (idx3 h w) (posWeight n i * (3 / 10)) k :=
          addAt_le _ _ _ (by linarith) k
      _ ≤ _ := ih (i + 1) _ k (by simp only [List.length_cons] at hlen; omega)

lemma accumTokens_entry_pos (h : String → ℕ) {n : ℕ} (w : String) (ws : List String)
    (v : Fin 384 → ℚ) (hv : 0 ≤ v (idx1 h w)) (hlen : (w :: ws).length = n) :
    0 < accumTokens h n 0 (w :: ws) v (idx1 h w) := by
  rw [accumTokens]
  have hin : 0 < n := by
    simp only [List.length_cons] at hlen
    omega
  have hpw := posWeight_pos hin
  have hv1 : 0 < addAt v (idx1 h w) (posWeight n 0) (idx1 h w) := by
    unfold addAt
    rw [Function.update_same]
    linarith
  have hv2 : 0 < addAt (addAt v (idx1 h w) (posWeight n 0)) (idx2 h w)
      (posWeight n 0 * (1 / 2)) (idx1 h w) :=
    lt_of_lt_of_le hv1 (addAt_le _ _ _ (by linarith) _)
  have hv3 : 0 < addAt (addAt (addAt v (idx1 h w) (posWeight n 0)) (idx2 h w)
      (posWeight n 0 * (1 / 2))) (idx3 h w) (posWeight n 0 * (3 / 10)) (idx1 h w) :=
    lt_of_lt_of_le hv2 (addAt_le _ _ _ (by linarith) _)
  exact lt_of_lt_of_le hv3
    (accumTokens_mono h n 1 ws _ (idx1 h w)
      (by simp only [List.length_cons] at hlen; omega))

lemma scaleFoldl_pos (h : String → ℕ) (n : ℕ) (tokens : List String) (j : Fin 384) :
    ∀ (ws : List String) (v : Fin 384 → ℝ),
      (∀ w ∈ ws, 0 < Real.log (1 + (n : ℝ) / (tokens.count w : ℝ))) → 0 < v j →
      0 < (ws.foldl (scaleStep h n tokens) v) j := by
  intro ws
  induction ws with
  | nil =>
    intro v _ hvj
    exact hvj
  | cons w ws ih =>
    intro v hws hvj
    rw [List.foldl_cons]
    refine ih _ (fun w' hw' => hws w' (List.mem_cons_of_mem _ hw')) ?_
    unfold scaleStep
    rcases eq_or_ne j (idx1 h w) with rfl | hne
    · rw [Function.update_same]
      exact mul_pos hvj (hws w (List.mem_cons_self _ _))
    · rw [Function.update_noteq hne]
      exact hvj

lemma normalized_normSq {v : Fin 384 → ℝ} (hS : 0 < ∑ j, v j ^ 2) :
    listNormSq ((List.finRange 384).map fun j => v j / Real.sqrt (∑ j, v j ^ 2)) = 1 := by
  unfold listNormSq
  rw [List.map_map]
  have hcomp : ((fun x => x ^ 2) ∘ fun j => v j / Real.sqrt (∑ j, v j ^ 2)) =
      fun j => v j ^ 2 / (∑ j, v j ^ 2) := by
    funext j
    simp only [Function.comp_apply, div_pow, Real.sq_sqrt hS.le]
  rw [hcomp, ← Fin.sum_univ_def, ← Finset.sum_div, div_self hS.ne']

/-- With at least one token, the pre-normalization vector is strictly
positive at the first token's primary hash index. -/
lemma embVec_entry_pos (h : String → ℕ) {text w : String} {ws : List String}
    (hws : tokenize text = w :: ws) : 0 < embVec h text (idx1 h w) := by
  unfold embVec tfidfScale
  rw [hws]
  refine scaleFoldl_pos h (w :: ws).length (w :: ws) _ (w :: ws).dedup _
    (fun w' hw' => ?_) ?_
  · have hmem : w' ∈ w :: ws := List.mem_dedup.mp hw'
    have hcount : 0 < (w :: ws).count w' := List.count_pos_iff.mpr hmem
    refine Real.log_pos ?_
    have hn_pos : (0 : ℝ) < ((w :: ws).length : ℝ) := by
      exact_mod_cast List.length_pos.mpr (List.cons_ne_nil w ws)
    have hc_pos : (0 : ℝ) < ((w :: ws).count w' : ℝ) := by exact_mod_cast hcount
    have hdiv : 0 < ((w :: ws).length : ℝ) / ((w :: ws).count w' : ℝ) :=
      div_pos hn_pos hc_pos
    linarith
  · have := accumTokens_entry_pos h w ws (fun _ => (0 : ℚ)) le_rfl rfl
    exact_mod_cast this

/-- If the input has at least one word token the heuristic embedding is
L2-normalized: its squared norm is exactly 1. -/
lemma embedding_normSq_one (h : String → ℕ) {text : String} (ht : tokenize text ≠ []) :
    listNormSq (generate_embedding_fallback h text) = 1 := by
  obtain ⟨w, ws, hws⟩ := List.exists_cons_of_ne_nil ht
  have hS : 0 < ∑ j, embVec h text j ^ 2 := by
    refine Finset.sum_pos' (fun j _ => sq_nonneg _) ⟨idx1 h w, Finset.mem_univ _, ?_⟩
    exact pow_pos (embVec_entry_pos h hws) 2
  unfold generate_embedding_fallback
  dsimp only
  rw [if_pos (Real.sqrt_pos.mpr hS)]
  exact normalized_normSq hS

/-- If the input has no word tokens the heuristic embedding is the
384-length zero vector. -/
lemma embedding_no_tokens (h : String → ℕ) {text : String} (ht : tokenize text = []) :
    generate_embedding_fallback h text = List.replicate 384 0 := by
  have hvec : embVec h text = fun _ => (0 : ℝ) := by
    funext j
    unfold embVec tfidfScale
    rw [ht]
    simp [accumTokens]
  unfold generate_embedding_fallback
  dsimp only
  rw [hvec]
  rw [show (∑ j : Fin 384, (fun _ => (0 : ℝ)) j ^ 2) = 0 from by simp, Real.sqrt_zero,
    if_neg (lt_irrefl 0)]
  rw [show ((List.finRange 384).map fun _ => (0 : ℝ)) = _ from List.map_const' _ 0,
    List.length_finRange]

lemma embedding_length (h : String → ℕ) (text : String) :
    (generate_embedding_fallback h text).length = 384 := by
  unfold generate_embedding_fallback
  rw [List.length_map, List.length_finRange]

/-- Counterexample for C2 as stated: the input `"!"` is non-empty, but it
tokenizes to no words, so the heuristic embedding is the zero vector and
its L2 norm is 0, not approximately 1. -/
theorem embedding_nonempty_input_cex :
    ("!" : String) ≠ "" ∧
    Real.sqrt (listNormSq (generate_embedding_fallback (fun _ => 0) "!")) = 0 := by
  refine ⟨by decide, ?_⟩
  rw [embedding_no_tokens (fun _ => 0) (by decide)]
  have hz : listNormSq (List.replicate 384 (0 : ℝ)) = 0 := by
    unfold listNormSq
    rw [List.map_replicate, List.sum_replicate]
    norm_num
  rw [hz, Real.sqrt_zero]

/-- Claim C2 amended: for every hash function and text, the heuristic
embedding has length exactly 384; its L2 norm is exactly 1 whenever the
text contains at least one word token, and it is the zero vector when the
text has no word tokens (in particular for empty input). -/
theorem embedding_fallback_spec (h : String → ℕ) (text : String) :
    (generate_embedding_fallback h text).length = 384 ∧
    (tokenize text ≠ [] →
      Real.sqrt (listNormSq (generate_embedding_fallback h text)) = 1) ∧
    (tokenize text = [] → generate_embedding_fallback h text = List.replicate 384 0) :=
  ⟨embedding_length h text,
   fun ht => by rw [embedding_normSq_one h ht, Real.sqrt_one],
   fun ht => embedding_no_tokens h ht⟩

/-- Witness for C2 (amended) at the concrete inputs `"hello"` (one token)
and `""` (no tokens), with the constant-zero hash. -/
theorem embedding_fallback_witness :
    Real.sqrt (listNormSq (generate_embedding_fallback (fun _ => 0) "hello")) = 1 ∧
    generate_embedding_fallback (fun _ => 0) "" = List.replicate 384 0 :=
  ⟨(embedding_fallback_spec (fun _ => 0) "hello").2.1 (by decide),
   (embedding_fallback_spec (fun _ => 0) "").2.2 (by decide)⟩

end DarwixAI
